import Mathlib

/-!
Verification of the DGA-detection pipeline: feature extraction
(second-level-label split, Shannon entropy), the prediction-to-decision
normalizer, synthetic dataset assembly, the attribution summarizer and the
playbook requester.  Python strings are modelled as Lean `String`/`List Char`,
Python floats as `ℚ` where only field arithmetic and formatting are involved
and as `ℝ` where logarithms are (Shannon entropy), exceptions as
`Option`/`Except`, and the ambient `random` module state as an explicit
generator value threaded through the calls.

Definitions come first, then all lemmas and the claim theorems.
-/

namespace DGA

/-! ## Python string primitives (models of str.lower, str.strip, str.split) -/

/-- Model of Python `str.lower()` (ASCII case folding). -/
def pyLower (s : String) : String := (s.toList.map Char.toLower).asString

/-- Model of Python `str.startswith(t)`. -/
def pyStartsWith (s t : String) : Bool := s.toList.take t.toList.length == t.toList

/-- Model of Python `str.strip()`: removes leading and trailing whitespace. -/
def stripWS (l : List Char) : List Char :=
  ((l.dropWhile Char.isWhitespace).reverse.dropWhile Char.isWhitespace).reverse

/-- Model of Python `str.split(".")`: splits on every dot, keeping empty
components; the empty string yields `[[]]` (Python: `[""]`). -/
def splitDot : List Char → List (List Char)
  | [] => [[]]
  | c :: rest =>
    match splitDot rest with
    | [] => [[]]
    | h :: t => if c = '.' then [] :: h :: t else (c :: h) :: t

/-! ## `split_sld` (src/2_analyze_domain.py, lines 25-29)

    def split_sld(domain: str) -> str:
        parts = domain.lower().strip().split(".")
        if len(parts) <= 1:
            return parts[0]
        return parts[-2]

`parts` is never empty (`splitDot_ne_nil` below), so the totalized indexings
`getD 0` and `getD (len-2)` agree with Python `parts[0]` / `parts[-2]`. -/

def split_sld (domain : String) : String :=
  let parts := splitDot (stripWS (pyLower domain).toList)
  if parts.length ≤ 1 then (parts.getD 0 []).asString
  else (parts.getD (parts.length - 2) []).asString

/-! ## `shannon_entropy` (src/1_train_and_export.py lines 28-33 and, verbatim
identical, src/2_analyze_domain.py lines 32-37)

    def shannon_entropy(s: str) -> float:
        if not s:
            return 0.0
        vals, counts = np.unique(list(s), return_counts=True)
        probs = counts / counts.sum()
        return float(-(probs * np.log2(probs)).sum())

`np.unique` returns the distinct characters with their multiplicities;
summation order is irrelevant, so the distinct characters are modelled by
`List.dedup`.  `counts.sum()` is the length of the string. -/

noncomputable def shannon_entropy (s : String) : ℝ :=
  if s.toList = [] then 0
  else
    -(((s.toList.dedup).map (fun c =>
        ((s.toList.count c : ℝ) / (s.toList.length : ℝ)) *
          Real.logb 2 ((s.toList.count c : ℝ) / (s.toList.length : ℝ)))).sum)

/-- The feature record built at src/2_analyze_domain.py line 54:
`features = {"length": len(sld), "entropy": shannon_entropy(sld)}`. -/
structure FeatureVector where
  length : ℕ
  entropy : ℝ

/-- The feature extractor: `{"length": len(s), "entropy": shannon_entropy(s)}`. -/
noncomputable def extract (s : String) : FeatureVector :=
  { length := s.length, entropy := shannon_entropy s }

/-- Spec-side definition of Shannon entropy, written from the words of the
spec (§4.1): group characters by distinct value (a finite set), weight each by
its relative frequency, return the negated sum of p·log₂ p.  Used only to
compare against the code-derived `shannon_entropy`. -/
noncomputable def shannonSpec (s : String) : ℝ :=
  -(∑ c ∈ s.toList.toFinset,
      ((s.toList.count c : ℝ) / (s.toList.length : ℝ)) *
        Real.logb 2 ((s.toList.count c : ℝ) / (s.toList.length : ℝ)))

/-! ## The inference normalizer (src/2_analyze_domain.py, lines 86-102)

    cols = [c.lower() for c in pred.columns]
    cmap = {c.lower(): c for c in pred.columns}
    p_dga = None
    if "dga" in cmap:
        p_dga = float(pred.loc[0, cmap["dga"]])
    elif "p1" in cmap:
        p_dga = float(pred.loc[0, cmap["p1"]])
    else:
        prob_cols = [c for c in pred.columns if c.lower().startswith("p")]
        if len(prob_cols) >= 2:
            p_dga = float(pred.loc[0, prob_cols[-1]])
        else:
            p_dga = 1.0 if str(pred.loc[0, "predict"]).lower() in ("1", "dga") else 0.0
    label = "dga" if p_dga >= 0.5 else "legit"

The single prediction row is modelled as an association list from column name
to cell value; a cell is either numeric or a string.  A raised exception
(pandas KeyError on a missing column, float() on a non-numeric string) is
modelled by `none`. -/

inductive PyVal where
  | num (q : ℚ)
  | str (s : String)
  deriving DecidableEq

/-- A prediction row: column names with their (single-row) values. -/
abbrev PredRow := List (String × PyVal)

/-- Model of Python `float(v)`: numeric cells convert, non-numeric strings
raise (numeric-string parsing is not reached by this program: probability
columns hold floats). -/
def pyFloat : PyVal → Option ℚ
  | .num q => some q
  | .str _ => none

/-- Model of Python `str(v)` on a cell. -/
def pyStr : PyVal → String
  | .num q => toString q
  | .str s => s

/-- `pred.loc[0, name]`: the value of the column with exactly this name;
`none` models the KeyError raised when the column is absent. -/
def locCol (row : PredRow) (name : String) : Option PyVal :=
  (row.find? (fun p => p.1 == name)).map Prod.snd

/-- `cmap[lname]` for `cmap = {c.lower(): c for c in pred.columns}`: the last
column whose lowercased name equals `lname` (later dict entries overwrite
earlier ones), or `none` when `lname not in cmap`. -/
def cmapGet (row : PredRow) (lname : String) : Option String :=
  ((row.reverse).find? (fun p => pyLower p.1 == lname)).map Prod.fst

/-- `prob_cols = [c for c in pred.columns if c.lower().startswith("p")]`. -/
def probCols (row : PredRow) : List String :=
  (row.map Prod.fst).filter (fun c => pyStartsWith (pyLower c) "p")

/-- The P(dga) derivation of src/2_analyze_domain.py lines 88-100; `none`
models an uncaught exception escaping the `else` branch. -/
def derive_p_dga (row : PredRow) : Option ℚ :=
  match cmapGet row "dga" with
  | some orig => (locCol row orig).bind pyFloat
  | none =>
    match cmapGet row "p1" with
    | some orig => (locCol row orig).bind pyFloat
    | none =>
      if 2 ≤ (probCols row).length then
        (locCol row ((probCols row).getLastD "")).bind pyFloat
      else
        match locCol row "predict" with
        | some v =>
          some (if pyLower (pyStr v) = "1" ∨ pyLower (pyStr v) = "dga" then 1 else 0)
        | none => none

/-- Line 102: `label = "dga" if p_dga >= 0.5 else "legit"`. -/
def labelOf (p : ℚ) : String := if 1/2 ≤ p then "dga" else "legit"

/-! ## Synthetic data generation (src/1_train_and_export.py, lines 24-78)

The Python `random` module is ambient mutable state; it is modelled by an
explicit generator value `Gen` (an infinite stream of draws together with a
position), threaded through every randomized call exactly in the order the
Python code consults the module.  The distributions themselves are irrelevant
to the claims; each primitive consumes one draw. -/

structure Gen where
  seq : ℕ → ℕ
  pos : ℕ

/-- Take one raw draw from the stream. -/
def Gen.next (g : Gen) : ℕ × Gen := (g.seq g.pos, { seq := g.seq, pos := g.pos + 1 })

/-- Model of `random.randint(a, b)` (both endpoints included). -/
def randint (g : Gen) (a b : ℕ) : ℕ × Gen :=
  let p := g.next
  (a + p.1 % (b + 1 - a), p.2)

/-- Model of `random.choice(l)` on a nonempty list (with a default for the
empty case, never reached by the callers below). -/
def pyChoice {α : Type} (g : Gen) (l : List α) (d : α) : α × Gen :=
  let p := g.next
  (l.getD (p.1 % l.length) d, p.2)

/-- Model of `random.random() < t/100` (one draw, compared against the
percentage threshold). -/
def randBool (g : Gen) (t : ℕ) : Bool × Gen :=
  let p := g.next
  (p.1 % 100 < t, p.2)

def vowelsList : List Char := ['a', 'e', 'i', 'o', 'u']

def consonantsList : List Char := "bcdfghjklmnpqrstvwxyz".toList

/-- `ALPHABET = string.ascii_lowercase + string.digits`. -/
def ALPHABET : List Char := "abcdefghijklmnopqrstuvwxyz0123456789".toList

/-- `COMMON_TLDS` (line 25). -/
def COMMON_TLDS : List String :=
  ["com", "net", "org", "io", "ai", "co", "info", "biz", "site", "top"]

/-- The alternating consonant/vowel loop of `random_legit_label`: `count`
characters, the loop index starting at `i`; even indices draw a consonant,
odd a vowel. -/
def altChars : Gen → ℕ → ℕ → List Char × Gen
  | g, 0, _ => ([], g)
  | g, n + 1, i =>
    let p := pyChoice g (if i % 2 = 0 then consonantsList else vowelsList) 'a'
    let rest := altChars p.2 n (i + 1)
    (p.1 :: rest.1, rest.2)

/-- `random_legit_label` (lines 36-47). -/
def random_legit_label (g : Gen) : List Char × Gen :=
  let pl := randint g 5 12
  let pname := altChars pl.2 pl.1 0
  let pb := randBool pname.2 20
  if pb.1 then
    let pe := randint pb.2 2 4
    let pextra := altChars pe.2 pe.1 0
    (pname.1 ++ '-' :: pextra.1, pextra.2)
  else (pname.1, pb.2)

/-- The character loop of `random_dga_label`. -/
def randChars : Gen → ℕ → List Char × Gen
  | g, 0 => ([], g)
  | g, n + 1 =>
    let p := pyChoice g ALPHABET 'a'
    let rest := randChars p.2 n
    (p.1 :: rest.1, rest.2)

/-- `random_dga_label` (lines 50-56). -/
def random_dga_label (g : Gen) : List Char × Gen :=
  let pl := randint g 12 26
  let ps := randChars pl.2 pl.1
  let pb := randBool ps.2 30
  if pb.1 then
    let pp := randint pb.2 3 (max 3 (pl.1 - 3))
    (ps.1.take pp.1 ++ '-' :: ps.1.drop pp.1, pp.2)
  else (ps.1, pb.2)

/-- `make_domain` (lines 59-60): the label, a dot, and a random TLD. -/
def make_domain (g : Gen) (sld : String) : String × Gen :=
  let p := pyChoice g COMMON_TLDS "com"
  (sld ++ "." ++ p.1, p.2)

/-- One row of the synthesized dataset (§3 DomainRecord). -/
structure DomainRecord where
  domain : String
  length : ℕ
  entropy : ℝ
  label : String

/-- The first loop of `synth_dataset` (lines 65-70): `n` legit records. -/
noncomputable def legitRows : Gen → ℕ → List DomainRecord × Gen
  | g, 0 => ([], g)
  | g, n + 1 =>
    let ps := random_legit_label g
    let pd := make_domain ps.2 ps.1.asString
    let rest := legitRows pd.2 n
    ({ domain := pd.1, length := ps.1.length,
       entropy := shannon_entropy ps.1.asString, label := "legit" } :: rest.1,
     rest.2)

/-- The second loop of `synth_dataset` (lines 71-76): `n` dga records. -/
noncomputable def dgaRows : Gen → ℕ → List DomainRecord × Gen
  | g, 0 => ([], g)
  | g, n + 1 =>
    let ps := random_dga_label g
    let pd := make_domain ps.2 ps.1.asString
    let rest := dgaRows pd.2 n
    ({ domain := pd.1, length := ps.1.length,
       entropy := shannon_entropy ps.1.asString, label := "dga" } :: rest.1,
     rest.2)

def lcgStep (n : ℕ) : ℕ := (1103515245 * n + 12345) % 2147483648

/-- Model of `df.sample(frac=1.0, random_state=seed)`: a deterministic
shuffle — repeatedly pick the index `state % remaining` and recurse with the
next PRNG state.  Any fixed-seed permutation is a faithful model of the
pandas shuffle for the claims below (which need determinism and
multiset-preservation only). -/
def shuffleIdx {α : Type} : ℕ → List α → List α
  | _, [] => []
  | s, x :: xs =>
    (x :: xs).getD (s % (xs.length + 1)) x ::
      shuffleIdx (lcgStep s) ((x :: xs).eraseIdx (s % (xs.length + 1)))
  termination_by _ l => l.length
  decreasing_by
    have h : s % (xs.length + 1) < xs.length + 1 := Nat.mod_lt _ (Nat.succ_pos _)
    simp [List.length_eraseIdx, h]

/-- `synth_dataset` (lines 63-78): build the legit rows, then the dga rows,
concatenate, then the seeded shuffle (`random_state=42`). -/
noncomputable def synth_dataset (g : Gen) (n_legit n_dga : ℕ) : List DomainRecord :=
  let pl := legitRows g n_legit
  let pd := dgaRows pl.2 n_dga
  shuffleIdx 42 (pl.1 ++ pd.1)

/-- The split in `main` (lines 99-100): `n_legit = rows // 2`,
`n_dga = rows - n_legit`. -/
def mainSplit (rows : ℕ) : ℕ × ℕ := (rows / 2, rows - rows / 2)

/-- A concrete generator, used for witnesses. -/
def constGen : Gen := { seq := fun _ => 0, pos := 0 }

/-! ## Number formatting (models of the Python format specifiers used in the
findings block: `:.1f`, `:.3f`, `:+.4f`).  Python rounds half-to-even; the
claims never depend on tie behaviour, so round-half-up is used. -/

/-- Decimal digits of `n`, left-padded with zeros to width `nd`. -/
def natPad (nd : ℕ) (n : ℕ) : String :=
  (List.replicate (nd - (toString n).length) '0').asString ++ toString n

/-- Fixed-point rendering of a nonnegative rational with `nd` decimals. -/
def fmtFixedNonneg (nd : ℕ) (q : ℚ) : String :=
  let scaled := (q * (10 : ℚ) ^ nd + 1/2).floor.toNat
  toString (scaled / 10 ^ nd) ++ "." ++ natPad nd (scaled % 10 ^ nd)

/-- Model of `f"{q:.ndf}"`. -/
def fmtFixed (nd : ℕ) (q : ℚ) : String :=
  if q < 0 then "-" ++ fmtFixedNonneg nd (-q) else fmtFixedNonneg nd q

/-- Model of `f"{q:+.ndf}"` (explicit sign). -/
def fmtSigned (nd : ℕ) (q : ℚ) : String :=
  if q < 0 then fmtFixed nd q else "+" ++ fmtFixed nd q

/-! ## The attribution summarizer (src/2_analyze_domain.py, lines 110-137)

The external contribution computation (`model.predict_contributions`) either
yields a single numeric row or raises; this outcome is the `Except` argument
(`.error e` carries the exception text rendered by `{e}`).  The feature
values interpolated into the text are the Python floats, modelled as `ℚ`. -/

/-- `contrib.loc[0, name]` guarded by `if name in contrib.columns`. -/
def contribGet (contrib : List (String × ℚ)) (name : String) : Option ℚ :=
  (contrib.find? (fun p => p.1 == name)).map Prod.snd

/-- `push_dir` (lines 117-118). -/
def push_dir (val : ℚ) : String :=
  if 0 ≤ val then "↑ toward DGA" else "↓ toward legit"

/-- The `xai_findings` block (lines 111-135): the success branch formats the
three contribution figures, the exception branch degrades to a
probability-only block carrying the reason. -/
def xai_findings (domain : String) (flen : ℕ) (fent : ℚ) (p_dga : ℚ)
    (contrib : Except String (List (String × ℚ))) : String :=
  match contrib with
  | .ok cr =>
    let shap_len := (contribGet cr "length").getD 0
    let shap_ent := (contribGet cr "entropy").getD 0
    let bias := (contribGet cr "BiasTerm").getD 0
    "- Alert: Potential DGA domain detected.\n" ++
    "- Domain: \x27" ++ domain ++ "\x27\n" ++
    "- AI Model Explanation (local SHAP / contributions):\n" ++
    "  - Confidence P(dga) = " ++ fmtFixed 1 (p_dga * 100) ++ "%\n" ++
    "  - length = " ++ toString flen ++ " → contribution " ++ fmtSigned 4 shap_len ++
    " (" ++ push_dir shap_len ++ ")\n" ++
    "  - entropy = " ++ fmtFixed 3 fent ++ " → contribution " ++ fmtSigned 4 shap_ent ++
    " (" ++ push_dir shap_ent ++ ")\n" ++
    "  - bias/intercept = " ++ fmtSigned 4 bias ++ "\n"
  | .error e =>
    "- Alert: Potential DGA domain detected.\n" ++
    "- Domain: \x27" ++ domain ++ "\x27\n" ++
    "- NOTE: SHAP contributions unavailable (" ++ e ++ "). Proceeding with probability only.\n" ++
    "- Confidence P(dga) = " ++ fmtFixed 1 (p_dga * 100) ++ "%\n"

/-! ## The playbook requester (src/genai_prescriptions.py, lines 28-56)

The HTTP exchange is external input: `PostOutcome.exn` is `requests.post`
raising (network failure), `.ok` carries the response with its status code,
raw text and the result of `r.json()` (`Except` with the decode-error text).
Everything after `requests.post` follows the source line by line; every
raised exception inside the `try` lands in one of the two handlers, which
format an error string — so the model returns `String` in all cases. -/

inductive Json where
  | null
  | str (s : String)
  | num (q : ℚ)
  | arr (xs : List Json)
  | obj (fields : List (String × Json))

/-- Python truthiness of a decoded JSON value. -/
def Json.truthy : Json → Bool
  | .null => false
  | .str s => s ≠ ""
  | .num q => q ≠ 0
  | .arr xs => !xs.isEmpty
  | .obj fs => !fs.isEmpty

mutual

/-- Model of `json.dumps` (compact rendering; string escaping not modelled). -/
def Json.dumps : Json → String
  | .null => "null"
  | .str s => "\"" ++ s ++ "\""
  | .num q => toString q
  | .arr xs => "[" ++ Json.dumpsList xs ++ "]"
  | .obj fs => "\x7b" ++ Json.dumpsFields fs ++ "\x7d"

/-- Comma-separated renderings of the elements of a JSON array. -/
def Json.dumpsList : List Json → String
  | [] => ""
  | [x] => x.dumps
  | x :: y :: t => x.dumps ++ ", " ++ Json.dumpsList (y :: t)

/-- Comma-separated `"key": value` renderings of the fields of a JSON object. -/
def Json.dumpsFields : List (String × Json) → String
  | [] => ""
  | [(k, v)] => "\"" ++ k ++ "\": " ++ v.dumps
  | (k, v) :: y :: t => "\"" ++ k ++ "\": " ++ v.dumps ++ ", " ++ Json.dumpsFields (y :: t)

end

/-- `j[k]` on an object; `none` models the KeyError/TypeError raised
otherwise. -/
def Json.field : Json → String → Option Json
  | .obj fs, k => (fs.find? (fun p => p.1 == k)).map Prod.snd
  | _, _ => none

/-- `j[0]` on a nonempty array; `none` models the raised exception. -/
def Json.index0 : Json → Option Json
  | .arr (x :: _) => some x
  | _ => none

/-- `cand["content"]["parts"][0]["text"]`; the well-formed response carries a
string there (a non-string value would be passed through by Python untyped;
its rendering is its dump). -/
def candText (cand : Json) : Option String :=
  match (((cand.field "content").bind (fun j => j.field "parts")).bind
      Json.index0).bind (fun j => j.field "text") with
  | some (.str s) => some s
  | some v => some (Json.dumps v)
  | none => none

structure HttpResp where
  status : ℕ
  text : String
  json : Except String Json

inductive PostOutcome where
  | exn (msg : String)
  | ok (r : HttpResp)

/-- `api_key = api_key or os.environ.get("GOOGLE_API_KEY")` followed by
`if not api_key:` — the empty string is falsy at both steps. -/
def resolveKey (apiKey envKey : Option String) : Option String :=
  match apiKey with
  | some s => if s = "" then envKey else some s
  | none => envKey

def keyTruthy : Option String → Bool
  | some s => s ≠ ""
  | none => false

def missingKeyMsg : String :=
  "[GenAI error] GOOGLE_API_KEY is not set. Set env var or pass api_key to generate_playbook()."

/-- Rendering of `f"{e}"` for `requests.HTTPError` (status-derived message;
the exact text of the library message is immaterial to the claims). -/
def httpErrText (status : ℕ) : String := toString status ++ " Error"

/-- `generate_playbook` (src/genai_prescriptions.py lines 28-56), with the
credential sources and the HTTP outcome as explicit inputs. -/
def generate_playbook (apiKey envKey : Option String) (outcome : PostOutcome) : String :=
  let key := resolveKey apiKey envKey
  if keyTruthy key = false then missingKeyMsg
  else
    match outcome with
    | .exn msg => "[GenAI error] " ++ msg
    | .ok r =>
      if 400 ≤ r.status then
        let detail := match r.json with
          | .ok j => Json.dumps j
          | .error _ => r.text
        "[GenAI error] " ++ httpErrText r.status ++ " — " ++ detail
      else
        match r.json with
        | .error m => "[GenAI error] " ++ m
        | .ok data =>
          match data with
          | .obj fs =>
            let cands := (((fs.find? (fun p => p.1 == "candidates")).map
                Prod.snd).getD Json.null)
            if cands.truthy = false then
              "[GenAI error] Empty response: " ++ (Json.dumps data).take 400 ++ "..."
            else
              match cands with
              | .arr (c :: _) =>
                if c.truthy = false then
                  "[GenAI error] Empty response: " ++ (Json.dumps data).take 400 ++ "..."
                else
                  match candText c with
                  | some t => t
                  | none => "[GenAI error] KeyError"
              | _ => "[GenAI error] TypeError"
          | _ => "[GenAI error] AttributeError"

/-! ## Helper lemmas -/

theorem splitDot_ne_nil (l : List Char) : splitDot l ≠ [] := by
  cases l with
  | nil => simp [splitDot]
  | cons c rest =>
    simp only [splitDot]
    cases splitDot rest with
    | nil => simp
    | cons h t =>
      by_cases hc : c = '.' <;> simp [hc]

theorem splitDot_of_not_mem {l : List Char} (h : '.' ∉ l) : splitDot l = [l] := by
  induction l with
  | nil => rfl
  | cons c rest ih =>
    have hc : c ≠ '.' := by
      intro hc; exact h (by simp [hc])
    have hrest : '.' ∉ rest := by
      intro hr; exact h (by simp [hr])
    simp [splitDot, ih hrest, hc]

theorem list_sum_nonpos : ∀ {l : List ℝ}, (∀ x ∈ l, x ≤ 0) → l.sum ≤ 0 := by
  intro l h
  induction l with
  | nil => simp
  | cons a t ih =>
    simp only [List.sum_cons]
    have h1 := h a (by simp)
    have h2 := ih (fun x hx => h x (by simp [hx]))
    linarith

theorem shannon_entropy_nonneg (s : String) : 0 ≤ shannon_entropy s := by
  rw [shannon_entropy]
  by_cases h : s.toList = []
  · rw [if_pos h]
  · rw [if_neg h, neg_nonneg]
    apply list_sum_nonpos
    intro x hx
    rcases List.mem_map.mp hx with ⟨c, hc, rfl⟩
    have hmem : c ∈ s.toList := List.mem_dedup.mp hc
    have hcount : 0 < s.toList.count c := List.count_pos_iff.mpr hmem
    have hlen : s.toList.count c ≤ s.toList.length := List.count_le_length c s.toList
    have hlpos : 0 < (s.toList.length : ℝ) := by
      have : 0 < s.toList.length := List.length_pos.mpr h
      exact_mod_cast this
    set p : ℝ := (s.toList.count c : ℝ) / (s.toList.length : ℝ) with hp
    have hppos : 0 < p := by
      apply div_pos _ hlpos
      exact_mod_cast hcount
    have hple : p ≤ 1 := by
      rw [hp, div_le_one hlpos]
      exact_mod_cast hlen
    have hlognp : Real.logb 2 p ≤ 0 := Real.logb_nonpos (by norm_num) hppos.le hple
    exact mul_nonpos_of_nonneg_of_nonpos hppos.le hlognp

/-- The code-derived entropy agrees with the formula written in the spec. -/
theorem shannon_entropy_eq_spec (s : String) : shannon_entropy s = shannonSpec s := by
  rw [shannon_entropy, shannonSpec]
  by_cases h : s.toList = []
  · rw [if_pos h]
    have hd : s.data = [] := h
    simp [hd]
  · rw [if_neg h]
    congr 1

theorem shannon_entropy_empty : shannon_entropy "" = 0 := by simp [shannon_entropy]

theorem shannon_entropy_aaaa : shannon_entropy "aaaa" = 0 := by
  have h1 : "aaaa".toList = ['a', 'a', 'a', 'a'] := rfl
  have h2 : (['a', 'a', 'a', 'a'] : List Char).dedup = ['a'] := rfl
  simp [shannon_entropy, h1, h2]

theorem shannon_entropy_ab : shannon_entropy "ab" = 1 := by
  have h1 : "ab".toList = ['a', 'b'] := rfl
  have h2 : (['a', 'b'] : List Char).dedup = ['a', 'b'] := rfl
  have hl : Real.logb 2 ((1:ℝ)/2) = -1 := by
    rw [one_div, Real.logb_inv, Real.logb_self_eq_one (by norm_num)]
  simp [shannon_entropy, h1, h2]
  norm_num [hl]

theorem shannon_entropy_google : shannon_entropy "google" = Real.logb 2 3 + 1/3 := by
  have h1 : "google".toList = ['g', 'o', 'o', 'g', 'l', 'e'] := rfl
  have h2 : (['g', 'o', 'o', 'g', 'l', 'e'] : List Char).dedup = ['o', 'g', 'l', 'e'] := by
    decide
  have h3 : Real.logb 2 ((1:ℝ)/3) = -Real.logb 2 3 := by
    rw [one_div, Real.logb_inv]
  have h6 : Real.logb 2 (6:ℝ) = 1 + Real.logb 2 3 := by
    rw [show (6:ℝ) = 2 * 3 by norm_num,
      Real.logb_mul (by norm_num) (by norm_num),
      Real.logb_self_eq_one (by norm_num)]
  simp [shannon_entropy, h1, h2]
  norm_num
  rw [h3, h6]
  ring

theorem logb_two_three_lt : Real.logb 2 3 < 8/5 := by
  rw [Real.logb_lt_iff_lt_rpow (by norm_num) (by norm_num)]
  have h2 : (0:ℝ) ≤ 2 := by norm_num
  have key : ((3:ℝ)) ^ (5:ℕ) < ((2:ℝ) ^ ((8:ℝ)/5)) ^ (5:ℕ) := by
    have he : ((2:ℝ) ^ ((8:ℝ)/5)) ^ (5:ℕ) = (2:ℝ) ^ ((8:ℕ):ℝ) := by
      rw [← Real.rpow_natCast ((2:ℝ) ^ ((8:ℝ)/5)) 5, ← Real.rpow_mul h2]
      norm_num
    rw [he, Real.rpow_natCast]
    norm_num
  exact lt_of_pow_lt_pow_left₀ 5 (Real.rpow_nonneg h2 _) key

theorem lt_logb_two_three : (19:ℝ)/12 < Real.logb 2 3 := by
  rw [Real.lt_logb_iff_rpow_lt (by norm_num) (by norm_num)]
  have h2 : (0:ℝ) ≤ 2 := by norm_num
  have key : ((2:ℝ) ^ ((19:ℝ)/12)) ^ (12:ℕ) < ((3:ℝ)) ^ (12:ℕ) := by
    have he : ((2:ℝ) ^ ((19:ℝ)/12)) ^ (12:ℕ) = (2:ℝ) ^ ((19:ℕ):ℝ) := by
      rw [← Real.rpow_natCast ((2:ℝ) ^ ((19:ℝ)/12)) 12, ← Real.rpow_mul h2]
      norm_num
    rw [he, Real.rpow_natCast]
    norm_num
  exact lt_of_pow_lt_pow_left₀ 12 (by norm_num) key

theorem shuffleIdx_nil {α : Type} (s : ℕ) : shuffleIdx s ([] : List α) = [] := by
  unfold shuffleIdx
  rfl

theorem shuffleIdx_cons {α : Type} (s : ℕ) (x : α) (xs : List α) :
    shuffleIdx s (x :: xs) =
      (x :: xs).getD (s % (xs.length + 1)) x ::
        shuffleIdx (lcgStep s) ((x :: xs).eraseIdx (s % (xs.length + 1))) := by
  rw [shuffleIdx]

theorem shuffleIdx_perm_bounded {α : Type} : ∀ (n s : ℕ) (l : List α), l.length ≤ n →
    (shuffleIdx s l).Perm l := by
  classical
  intro n
  induction n with
  | zero =>
    intro s l hl
    have : l = [] := List.eq_nil_of_length_eq_zero (Nat.le_zero.mp hl)
    subst this
    simp [shuffleIdx_nil]
  | succ n ih =>
    intro s l hl
    cases l with
    | nil => simp [shuffleIdx_nil]
    | cons x xs =>
      rw [shuffleIdx_cons]
      have hi : s % (xs.length + 1) < (x :: xs).length := Nat.mod_lt _ (by simp)
      have hget : (x :: xs).getD (s % (xs.length + 1)) x = (x :: xs)[s % (xs.length + 1)] :=
        List.getD_eq_getElem (x :: xs) x hi
      have hperm1 : (x :: xs).Perm
          ((x :: xs)[s % (xs.length + 1)] :: (x :: xs).eraseIdx (s % (xs.length + 1))) := by
        refine (List.perm_cons_erase ((x :: xs).getElem_mem hi)).trans ?_
        exact List.Perm.cons _ (List.erase_getElem hi)
      have hlen2 : ((x :: xs).eraseIdx (s % (xs.length + 1))).length ≤ n := by
        rw [List.length_eraseIdx]
        simp only [hi, if_true]
        simp at hl ⊢
        omega
      have hrec := ih (lcgStep s) _ hlen2
      rw [hget]
      exact (List.Perm.cons _ hrec).trans hperm1.symm

theorem shuffleIdx_perm {α : Type} (s : ℕ) (l : List α) : (shuffleIdx s l).Perm l :=
  shuffleIdx_perm_bounded l.length s l le_rfl

theorem legitRows_spec : ∀ (n : ℕ) (g : Gen),
    (legitRows g n).1.length = n ∧ ∀ r ∈ (legitRows g n).1, r.label = "legit" := by
  intro n
  induction n with
  | zero => intro g; simp [legitRows]
  | succ n ih =>
    intro g
    simp only [legitRows]
    refine ⟨by simp [(ih _).1], ?_⟩
    intro r hr
    rcases List.mem_cons.mp hr with h | h
    · rw [h]
    · exact (ih _).2 r h

theorem dgaRows_spec : ∀ (n : ℕ) (g : Gen),
    (dgaRows g n).1.length = n ∧ ∀ r ∈ (dgaRows g n).1, r.label = "dga" := by
  intro n
  induction n with
  | zero => intro g; simp [dgaRows]
  | succ n ih =>
    intro g
    simp only [dgaRows]
    refine ⟨by simp [(ih _).1], ?_⟩
    intro r hr
    rcases List.mem_cons.mp hr with h | h
    · rw [h]
    · exact (ih _).2 r h

theorem countP_all_eq {l : List DomainRecord} {lab : String}
    (h : ∀ r ∈ l, r.label = lab) : l.countP (fun r => r.label == lab) = l.length := by
  apply List.countP_eq_length.mpr
  intro r hr
  simp [h r hr]

theorem countP_none_eq {l : List DomainRecord} {lab other : String} (hne : lab ≠ other)
    (h : ∀ r ∈ l, r.label = lab) : l.countP (fun r => r.label == other) = 0 := by
  apply List.countP_eq_zero.mpr
  intro r hr
  simp [h r hr, hne]

theorem synth_dataset_counts (g : Gen) (nl nd : ℕ) :
    (synth_dataset g nl nd).length = nl + nd ∧
    (synth_dataset g nl nd).countP (fun r => r.label == "legit") = nl ∧
    (synth_dataset g nl nd).countP (fun r => r.label == "dga") = nd := by
  have hperm := shuffleIdx_perm 42 ((legitRows g nl).1 ++ (dgaRows (legitRows g nl).2 nd).1)
  have hl := legitRows_spec nl g
  have hd := dgaRows_spec nd (legitRows g nl).2
  have hsynth : synth_dataset g nl nd =
      shuffleIdx 42 ((legitRows g nl).1 ++ (dgaRows (legitRows g nl).2 nd).1) := rfl
  refine ⟨?_, ?_, ?_⟩
  · rw [hsynth, hperm.length_eq, List.length_append, hl.1, hd.1]
  · rw [hsynth, hperm.countP_eq, List.countP_append,
      countP_all_eq hl.2, countP_none_eq (by decide) hd.2, hl.1]
    omega
  · rw [hsynth, hperm.countP_eq, List.countP_append,
      countP_none_eq (by decide) hl.2, countP_all_eq hd.2, hd.1]
    omega

theorem getLastD_mem {α : Type} : ∀ (l : List α) (d : α), l ≠ [] → l.getLastD d ∈ l
  | [x], _, _ => by simp
  | x :: y :: t, d, _ => by
    have ih := getLastD_mem (y :: t) x (by simp)
    exact List.mem_cons_of_mem x ih

theorem cmapGet_eq_none {row : PredRow} {lname : String}
    (h : ∀ pr ∈ row, pyLower pr.1 ≠ lname) : cmapGet row lname = none := by
  rw [cmapGet, Option.map_eq_none', List.find?_eq_none]
  intro pr hm
  simp only [beq_iff_eq]
  exact h pr (by simpa using hm)

theorem derive_case_dga {row : PredRow}
    (hhas : ∃ pr ∈ row, pyLower pr.1 = "dga")
    (hnum : ∀ pr ∈ row, pyLower pr.1 = "dga" → ∃ q, pr.2 = PyVal.num q) :
    ∃ q, derive_p_dga row = some q := by
  obtain ⟨pr0, hm0, hl0⟩ := hhas
  have hex : ∃ x, x ∈ row.reverse ∧ (pyLower x.1 == "dga") = true :=
    ⟨pr0, by simpa using hm0, by simp [hl0]⟩
  obtain ⟨pr, hfr⟩ := Option.isSome_iff_exists.mp (List.find?_isSome.mpr hex)
  have hprl : pyLower pr.1 = "dga" := by simpa using List.find?_some hfr
  have hcmap : cmapGet row "dga" = some pr.1 := by simp [cmapGet, hfr]
  have hmem : pr ∈ row := by simpa using List.mem_of_find?_eq_some hfr
  have hex2 : ∃ x, x ∈ row ∧ (x.1 == pr.1) = true := ⟨pr, hmem, by simp⟩
  obtain ⟨pr2, hfr2⟩ := Option.isSome_iff_exists.mp (List.find?_isSome.mpr hex2)
  have hpr2name : pr2.1 = pr.1 := by simpa using List.find?_some hfr2
  have hpr2mem : pr2 ∈ row := List.mem_of_find?_eq_some hfr2
  obtain ⟨q, hq⟩ := hnum pr2 hpr2mem (by rw [hpr2name]; exact hprl)
  refine ⟨q, ?_⟩
  simp [derive_p_dga, hcmap, locCol, hfr2, hq, pyFloat]

theorem derive_case_p1 {row : PredRow}
    (hno1 : ∀ pr ∈ row, pyLower pr.1 ≠ "dga")
    (hhas : ∃ pr ∈ row, pyLower pr.1 = "p1")
    (hnum : ∀ pr ∈ row, pyLower pr.1 = "p1" → ∃ q, pr.2 = PyVal.num q) :
    ∃ q, derive_p_dga row = some q := by
  obtain ⟨pr0, hm0, hl0⟩ := hhas
  have hex : ∃ x, x ∈ row.reverse ∧ (pyLower x.1 == "p1") = true :=
    ⟨pr0, by simpa using hm0, by simp [hl0]⟩
  obtain ⟨pr, hfr⟩ := Option.isSome_iff_exists.mp (List.find?_isSome.mpr hex)
  have hprl : pyLower pr.1 = "p1" := by simpa using List.find?_some hfr
  have hcmap : cmapGet row "p1" = some pr.1 := by simp [cmapGet, hfr]
  have hmem : pr ∈ row := by simpa using List.mem_of_find?_eq_some hfr
  have hex2 : ∃ x, x ∈ row ∧ (x.1 == pr.1) = true := ⟨pr, hmem, by simp⟩
  obtain ⟨pr2, hfr2⟩ := Option.isSome_iff_exists.mp (List.find?_isSome.mpr hex2)
  have hpr2name : pr2.1 = pr.1 := by simpa using List.find?_some hfr2
  have hpr2mem : pr2 ∈ row := List.mem_of_find?_eq_some hfr2
  obtain ⟨q, hq⟩ := hnum pr2 hpr2mem (by rw [hpr2name]; exact hprl)
  refine ⟨q, ?_⟩
  simp [derive_p_dga, cmapGet_eq_none hno1, hcmap, locCol, hfr2, hq, pyFloat]

theorem derive_case_plast {row : PredRow}
    (hno1 : ∀ pr ∈ row, pyLower pr.1 ≠ "dga")
    (hno2 : ∀ pr ∈ row, pyLower pr.1 ≠ "p1")
    (hlen : 2 ≤ (probCols row).length)
    (hnum : ∀ pr ∈ row, pyStartsWith (pyLower pr.1) "p" = true → ∃ q, pr.2 = PyVal.num q) :
    ∃ q, derive_p_dga row = some q := by
  have hne : probCols row ≠ [] := by
    intro h
    rw [h] at hlen
    simp at hlen
  have hlastmem : (probCols row).getLastD "" ∈ probCols row := getLastD_mem _ _ hne
  have hlast := List.mem_filter.mp hlastmem
  obtain ⟨pr0, hm0, hname0⟩ := List.mem_map.mp hlast.1
  have hex2 : ∃ x, x ∈ row ∧ (x.1 == (probCols row).getLastD "") = true :=
    ⟨pr0, hm0, by simp [hname0]⟩
  obtain ⟨pr2, hfr2⟩ := Option.isSome_iff_exists.mp (List.find?_isSome.mpr hex2)
  have hpr2name : pr2.1 = (probCols row).getLastD "" := by simpa using List.find?_some hfr2
  have hpr2mem : pr2 ∈ row := List.mem_of_find?_eq_some hfr2
  obtain ⟨q, hq⟩ := hnum pr2 hpr2mem (by rw [hpr2name]; exact hlast.2)
  refine ⟨q, ?_⟩
  have hcase : derive_p_dga row = (locCol row ((probCols row).getLastD "")).bind pyFloat := by
    simp [derive_p_dga, cmapGet_eq_none hno1, cmapGet_eq_none hno2, hlen]
  rw [hcase, locCol, hfr2]
  simp [hq, pyFloat]

theorem derive_case_predict {row : PredRow}
    (hno1 : ∀ pr ∈ row, pyLower pr.1 ≠ "dga")
    (hno2 : ∀ pr ∈ row, pyLower pr.1 ≠ "p1")
    (hlen : (probCols row).length < 2)
    (hpred : ∃ pr ∈ row, pr.1 = "predict") :
    ∃ q, derive_p_dga row = some q := by
  obtain ⟨pr0, hm0, hname0⟩ := hpred
  have hex2 : ∃ x, x ∈ row ∧ (x.1 == "predict") = true := ⟨pr0, hm0, by simp [hname0]⟩
  obtain ⟨pr2, hfr2⟩ := Option.isSome_iff_exists.mp (List.find?_isSome.mpr hex2)
  refine ⟨if pyLower (pyStr pr2.2) = "1" ∨ pyLower (pyStr pr2.2) = "dga" then 1 else 0, ?_⟩
  simp [derive_p_dga, cmapGet_eq_none hno1, cmapGet_eq_none hno2,
    Nat.not_le.mpr hlen, locCol, hfr2]

theorem split_sld_lower_invariant {d1 d2 : String} (h : pyLower d1 = pyLower d2) :
    split_sld d1 = split_sld d2 := by
  simp only [split_sld, h]

theorem split_sld_no_dot {d : String} (h : '.' ∉ stripWS (pyLower d).toList) :
    split_sld d = (stripWS (pyLower d).toList).asString := by
  simp only [split_sld, splitDot_of_not_mem h]
  simp

theorem split_sld_parts {d : String} (h : 2 ≤ (splitDot (stripWS (pyLower d).toList)).length) :
    split_sld d = ((splitDot (stripWS (pyLower d).toList)).getD
      ((splitDot (stripWS (pyLower d).toList)).length - 2) []).asString := by
  simp only [split_sld]
  rw [if_neg (by omega)]

/-! ## Claim theorems -/

/-- C1: for every string the feature extractor returns length equal to the
character count and entropy equal to the Shannon entropy in bits of the
character multiset (the spec formula `shannonSpec`); the empty string yields
length 0 and entropy 0.0, a single repeated character yields entropy 0.0,
"ab" yields exactly 1.0, and the result is always (finite and) non-negative,
with no exception raised (the extractor is total by construction). -/
theorem C1_feature_extractor :
    (∀ s : String,
      (extract s).length = s.length ∧
      (extract s).entropy = shannonSpec s ∧
      0 ≤ (extract s).entropy) ∧
    (extract "").length = 0 ∧
    (extract "").entropy = 0 ∧
    (extract "aaaa").entropy = 0 ∧
    (extract "ab").entropy = 1 := by
  refine ⟨fun s => ⟨rfl, shannon_entropy_eq_spec s, shannon_entropy_nonneg s⟩,
    rfl, shannon_entropy_empty, shannon_entropy_aaaa, shannon_entropy_ab⟩

/-- C2: the normalizer resolves probabilityPositive in the exact fallback
order (a case-insensitive `dga` column; else a case-insensitive `p1` column;
else, when at least two lowercase-p-initial columns exist, the last of them;
else the discrete `predict` column mapped to 1.0 for "1"/"dga" and 0.0
otherwise), and the four spec examples evaluate as stated. -/
theorem C2_normalizer_fallback :
    (∀ (row : PredRow) (c : String), cmapGet row "dga" = some c →
      derive_p_dga row = (locCol row c).bind pyFloat) ∧
    (∀ (row : PredRow) (c : String), cmapGet row "dga" = none →
      cmapGet row "p1" = some c →
      derive_p_dga row = (locCol row c).bind pyFloat) ∧
    (∀ row : PredRow, cmapGet row "dga" = none → cmapGet row "p1" = none →
      2 ≤ (probCols row).length →
      derive_p_dga row = (locCol row ((probCols row).getLastD "")).bind pyFloat) ∧
    (∀ (row : PredRow) (v : PyVal), cmapGet row "dga" = none → cmapGet row "p1" = none →
      (probCols row).length < 2 → locCol row "predict" = some v →
      derive_p_dga row =
        some (if pyLower (pyStr v) = "1" ∨ pyLower (pyStr v) = "dga" then 1 else 0)) ∧
    (∀ q q' : ℚ,
      derive_p_dga [("dga", PyVal.num q), ("legit", PyVal.num q')] = some q ∧
      labelOf (73/100 : ℚ) = "dga") ∧
    (∀ q q' : ℚ,
      derive_p_dga [("p0", PyVal.num q), ("p1", PyVal.num q')] = some q' ∧
      labelOf (1/10 : ℚ) = "legit") ∧
    (derive_p_dga [("predict", PyVal.str "dga")] = some 1 ∧ labelOf 1 = "dga") ∧
    (derive_p_dga [("predict", PyVal.str "legit")] = some 0 ∧ labelOf 0 = "legit") := by
  refine ⟨?_, ?_, ?_, ?_, ?_, ?_, ?_, ?_⟩
  · intro row c h
    simp [derive_p_dga, h]
  · intro row c h1 h2
    simp [derive_p_dga, h1, h2]
  · intro row h1 h2 hlen
    simp [derive_p_dga, h1, h2, hlen]
  · intro row v h1 h2 hlen hv
    simp [derive_p_dga, h1, h2, Nat.not_le.mpr hlen, hv]
  · exact fun q q' => ⟨rfl, by norm_num [labelOf]⟩
  · exact fun q q' => ⟨rfl, by norm_num [labelOf]⟩
  · exact ⟨by decide, by norm_num [labelOf]⟩
  · exact ⟨by decide, by norm_num [labelOf]⟩

theorem C2_normalizer_fallback_witness :
    cmapGet [("DGA", PyVal.num 1)] "dga" = some "DGA" ∧
    derive_p_dga [("DGA", PyVal.num 1)] =
      (locCol [("DGA", PyVal.num 1)] "DGA").bind pyFloat :=
  ⟨by decide, C2_normalizer_fallback.1 [("DGA", PyVal.num 1)] "DGA" (by decide)⟩

/-- C3 counterexample: the row whose only column is `Predict` (capital P)
matches fallback case 4 under case-insensitive column matching, yet the code
reads `pred.loc[0, "predict"]` with the exact lowercase name and raises a
KeyError (modelled by `none`) — so the claim that all four cases match
case-insensitively and never throw is false. -/
theorem C3_normalizer_counterexample :
    derive_p_dga [("Predict", PyVal.str "dga")] = none := by decide

/-- C3 amended: cases 1-3 match column names case-insensitively and produce a
value without throwing whenever the matched columns are numeric; case 4
requires a column literally named `predict` (lowercase). -/
theorem C3_normalizer_amended :
    ∀ row : PredRow,
      ((∃ pr ∈ row, pyLower pr.1 = "dga") →
        (∀ pr ∈ row, pyLower pr.1 = "dga" → ∃ q, pr.2 = PyVal.num q) →
        ∃ q, derive_p_dga row = some q) ∧
      ((∀ pr ∈ row, pyLower pr.1 ≠ "dga") → (∃ pr ∈ row, pyLower pr.1 = "p1") →
        (∀ pr ∈ row, pyLower pr.1 = "p1" → ∃ q, pr.2 = PyVal.num q) →
        ∃ q, derive_p_dga row = some q) ∧
      ((∀ pr ∈ row, pyLower pr.1 ≠ "dga") → (∀ pr ∈ row, pyLower pr.1 ≠ "p1") →
        2 ≤ (probCols row).length →
        (∀ pr ∈ row, pyStartsWith (pyLower pr.1) "p" = true → ∃ q, pr.2 = PyVal.num q) →
        ∃ q, derive_p_dga row = some q) ∧
      ((∀ pr ∈ row, pyLower pr.1 ≠ "dga") → (∀ pr ∈ row, pyLower pr.1 ≠ "p1") →
        (probCols row).length < 2 → (∃ pr ∈ row, pr.1 = "predict") →
        ∃ q, derive_p_dga row = some q) := by
  intro row
  exact ⟨fun h1 h2 => derive_case_dga h1 h2,
    fun h1 h2 h3 => derive_case_p1 h1 h2 h3,
    fun h1 h2 h3 h4 => derive_case_plast h1 h2 h3 h4,
    fun h1 h2 h3 h4 => derive_case_predict h1 h2 h3 h4⟩

theorem C3_normalizer_amended_witness :
    ∃ q, derive_p_dga [("P1", PyVal.num 1), ("junk", PyVal.str "x")] = some q :=
  (C3_normalizer_amended [("P1", PyVal.num 1), ("junk", PyVal.str "x")]).2.1
    (by decide) (by decide)
    (by
      intro pr hm hl
      rcases List.mem_cons.mp hm with h | h
      · rw [h]
        exact ⟨1, rfl⟩
      · rcases List.mem_cons.mp h with h2 | h2
        · rw [h2] at hl
          exact absurd hl (by decide)
        · simp at h2)

/-- C4: the predicted label is dga iff probabilityPositive is at least 0.5;
the threshold is inclusive (0.5 maps to dga) and anything below maps to
legit. -/
theorem C4_threshold :
    ∀ p : ℚ,
      (labelOf p = "dga" ↔ 1/2 ≤ p) ∧
      labelOf (1/2 : ℚ) = "dga" ∧
      (p < 1/2 → labelOf p = "legit") := by
  intro p
  refine ⟨?_, by norm_num [labelOf], ?_⟩
  · rw [labelOf]
    constructor
    · intro h
      by_contra hlt
      rw [if_neg hlt] at h
      exact absurd h (by decide)
    · intro h
      rw [if_pos h]
  · intro h
    rw [labelOf, if_neg (by exact not_le.mpr h)]

theorem C4_threshold_witness :
    labelOf (1/2 : ℚ) = "dga" ∧ labelOf (1/4 : ℚ) = "legit" :=
  ⟨(C4_threshold (1/2)).2.1, (C4_threshold (1/4)).2.2 (by norm_num)⟩

/-- C5: for all nLegit, nDga the assembler returns exactly nLegit + nDga
records, exactly nLegit labelled legit and exactly nDga labelled dga
(shuffling preserves both counts); and the training entry point splits its
row count as nLegit = rows div 2, nDga = rows - nLegit, the extra record of
an odd row count going to the dga class. -/
theorem C5_dataset_assembly :
    (∀ (g : Gen) (nl nd : ℕ),
      (synth_dataset g nl nd).length = nl + nd ∧
      (synth_dataset g nl nd).countP (fun r => r.label == "legit") = nl ∧
      (synth_dataset g nl nd).countP (fun r => r.label == "dga") = nd) ∧
    (∀ rows : ℕ,
      mainSplit rows = (rows / 2, rows - rows / 2) ∧
      (mainSplit rows).1 + (mainSplit rows).2 = rows ∧
      (rows % 2 = 1 → (mainSplit rows).2 = (mainSplit rows).1 + 1)) := by
  refine ⟨fun g nl nd => synth_dataset_counts g nl nd, fun rows => ⟨rfl, ?_, ?_⟩⟩
  · simp only [mainSplit]
    omega
  · intro h
    simp only [mainSplit]
    omega

theorem C5_dataset_assembly_witness :
    (synth_dataset constGen 2 3).length = 2 + 3 ∧
    (mainSplit 7).1 + (mainSplit 7).2 = 7 ∧
    (mainSplit 7).2 = (mainSplit 7).1 + 1 :=
  ⟨(C5_dataset_assembly.1 constGen 2 3).1, (C5_dataset_assembly.2 7).2.1,
    (C5_dataset_assembly.2 7).2.2 (by decide)⟩

/-- C8: dataset assembly is deterministic once the random source state at the
assembly boundary is fixed: two runs from equal generator states and equal
inputs produce the same record sequence in the same shuffled order (the
shuffle seed is the constant 42). -/
theorem C8_assembly_determinism :
    ∀ (g g' : Gen) (nl nd : ℕ), g = g' →
      synth_dataset g nl nd = synth_dataset g' nl nd := by
  intro g g' nl nd h
  rw [h]

theorem C8_assembly_determinism_witness :
    synth_dataset constGen 1 2 = synth_dataset constGen 1 2 :=
  C8_assembly_determinism constGen constGen 1 2 rfl

/-- C6: the attribution summarizer never propagates a failure: for either
outcome of the contribution computation a findings block (a `String`) is
produced — the match below is total — and the block always contains the
literal domain string and the formatted probability value; on failure it
additionally contains the unavailability note carrying the underlying
reason. -/
theorem C6_attribution_summarizer :
    ∀ (domain : String) (flen : ℕ) (fent p : ℚ)
      (contrib : Except String (List (String × ℚ))),
      (∃ a b, xai_findings domain flen fent p contrib = a ++ domain ++ b) ∧
      (∃ a b, xai_findings domain flen fent p contrib = a ++ fmtFixed 1 (p * 100) ++ b) ∧
      (∀ e, contrib = Except.error e →
        ∃ a b, xai_findings domain flen fent p contrib =
          a ++ "- NOTE: SHAP contributions unavailable (" ++ e ++
            "). Proceeding with probability only.\n" ++ b) := by
  intro domain flen fent p contrib
  cases contrib with
  | ok cr =>
    refine ⟨⟨"- Alert: Potential DGA domain detected.\n" ++ "- Domain: \x27",
      "\x27\n" ++ "- AI Model Explanation (local SHAP / contributions):\n" ++
        "  - Confidence P(dga) = " ++ fmtFixed 1 (p * 100) ++ "%\n" ++
        "  - length = " ++ toString flen ++ " → contribution " ++
        fmtSigned 4 ((contribGet cr "length").getD 0) ++
        " (" ++ push_dir ((contribGet cr "length").getD 0) ++ ")\n" ++
        "  - entropy = " ++ fmtFixed 3 fent ++ " → contribution " ++
        fmtSigned 4 ((contribGet cr "entropy").getD 0) ++
        " (" ++ push_dir ((contribGet cr "entropy").getD 0) ++ ")\n" ++
        "  - bias/intercept = " ++ fmtSigned 4 ((contribGet cr "BiasTerm").getD 0) ++ "\n",
      ?_⟩, ⟨"- Alert: Potential DGA domain detected.\n" ++ "- Domain: \x27" ++ domain ++
        "\x27\n" ++ "- AI Model Explanation (local SHAP / contributions):\n" ++
        "  - Confidence P(dga) = ",
      "%\n" ++
        "  - length = " ++ toString flen ++ " → contribution " ++
        fmtSigned 4 ((contribGet cr "length").getD 0) ++
        " (" ++ push_dir ((contribGet cr "length").getD 0) ++ ")\n" ++
        "  - entropy = " ++ fmtFixed 3 fent ++ " → contribution " ++
        fmtSigned 4 ((contribGet cr "entropy").getD 0) ++
        " (" ++ push_dir ((contribGet cr "entropy").getD 0) ++ ")\n" ++
        "  - bias/intercept = " ++ fmtSigned 4 ((contribGet cr "BiasTerm").getD 0) ++ "\n",
      ?_⟩, ?_⟩
    · simp only [xai_findings, String.append_assoc]
    · simp only [xai_findings, String.append_assoc]
    · intro e he
      exact absurd he (by simp)
  | error e =>
    refine ⟨⟨"- Alert: Potential DGA domain detected.\n" ++ "- Domain: \x27",
      "\x27\n" ++ "- NOTE: SHAP contributions unavailable (" ++ e ++
        "). Proceeding with probability only.\n" ++
        "- Confidence P(dga) = " ++ fmtFixed 1 (p * 100) ++ "%\n",
      ?_⟩, ⟨"- Alert: Potential DGA domain detected.\n" ++ "- Domain: \x27" ++ domain ++
        "\x27\n" ++ "- NOTE: SHAP contributions unavailable (" ++ e ++
        "). Proceeding with probability only.\n" ++ "- Confidence P(dga) = ",
      "%\n", ?_⟩, ?_⟩
    · simp only [xai_findings, String.append_assoc]
    · simp only [xai_findings, String.append_assoc]
    · intro e2 he
      have he2 : e2 = e := by
        injection he with h
        exact h.symm
      subst he2
      refine ⟨"- Alert: Potential DGA domain detected.\n" ++ "- Domain: \x27" ++ domain ++
        "\x27\n", "- Confidence P(dga) = " ++ fmtFixed 1 (p * 100) ++ "%\n", ?_⟩
      simp only [xai_findings, String.append_assoc]

theorem C6_attribution_summarizer_witness :
    ∃ a b, xai_findings "bad.top" 3 2 1 (Except.error "boom") =
      a ++ "- NOTE: SHAP contributions unavailable (" ++ "boom" ++
        "). Proceeding with probability only.\n" ++ b :=
  (C6_attribution_summarizer "bad.top" 3 2 1 (Except.error "boom")).2.2 "boom" rfl

/-- C7: the playbook requester returns a string (never raises) in every
failure mode: a missing/empty credential yields the missing-key message, a
network failure, an HTTP error status, a malformed JSON body and an
empty/absent candidate list each yield a descriptive "[GenAI error]"
string. -/
theorem C7_generate_playbook :
    ∀ (apiKey envKey : Option String) (outcome : PostOutcome),
      (keyTruthy (resolveKey apiKey envKey) = false →
        generate_playbook apiKey envKey outcome = missingKeyMsg) ∧
      (∀ m, keyTruthy (resolveKey apiKey envKey) = true → outcome = PostOutcome.exn m →
        generate_playbook apiKey envKey outcome = "[GenAI error] " ++ m) ∧
      (∀ r, keyTruthy (resolveKey apiKey envKey) = true → outcome = PostOutcome.ok r →
        400 ≤ r.status →
        ∃ rest, generate_playbook apiKey envKey outcome = "[GenAI error] " ++ rest) ∧
      (∀ r m, keyTruthy (resolveKey apiKey envKey) = true → outcome = PostOutcome.ok r →
        r.status < 400 → r.json = Except.error m →
        generate_playbook apiKey envKey outcome = "[GenAI error] " ++ m) ∧
      (∀ r fs, keyTruthy (resolveKey apiKey envKey) = true → outcome = PostOutcome.ok r →
        r.status < 400 → r.json = Except.ok (Json.obj fs) →
        (((fs.find? (fun pr => pr.1 == "candidates")).map Prod.snd).getD Json.null).truthy
          = false →
        generate_playbook apiKey envKey outcome =
          "[GenAI error] Empty response: " ++ (Json.dumps (Json.obj fs)).take 400 ++ "...") := by
  intro apiKey envKey outcome
  refine ⟨?_, ?_, ?_, ?_, ?_⟩
  · intro hkey
    simp [generate_playbook, hkey]
  · intro m hkey hout
    subst hout
    simp [generate_playbook, hkey]
  · intro r hkey hout hst
    subst hout
    refine ⟨httpErrText r.status ++ " — " ++ (match r.json with
      | .ok j => Json.dumps j
      | .error _ => r.text), ?_⟩
    simp [generate_playbook, hkey, hst, String.append_assoc]
  · intro r m hkey hout hst hjson
    subst hout
    simp [generate_playbook, hkey, Nat.not_le.mpr hst, hjson]
  · intro r fs hkey hout hst hjson hcands
    subst hout
    simp [generate_playbook, hkey, Nat.not_le.mpr hst, hjson, hcands]

theorem C7_generate_playbook_witness :
    generate_playbook none none (PostOutcome.exn "connection refused") = missingKeyMsg :=
  (C7_generate_playbook none none (PostOutcome.exn "connection refused")).1 rfl

/-- C9 counterexample: for "google.com" the extracted label is "google" with
length 6, but its Shannon entropy is log₂3 + 1/3 ≈ 1.918 bits, more than 0.3
below the claimed ≈2.25 — the claimed entropy value is wrong. -/
theorem C9_google_counterexample :
    split_sld "google.com" = "google" ∧
    (extract "google").length = 6 ∧
    (0.3 : ℝ) < |shannon_entropy (split_sld "google.com") - 2.25| := by
  have hs : split_sld "google.com" = "google" := by decide
  refine ⟨hs, rfl, ?_⟩
  rw [hs, shannon_entropy_google]
  have h1 := logb_two_three_lt
  have h2 := lt_logb_two_three
  rw [abs_of_neg (by norm_num; linarith)]
  norm_num
  linarith

/-- C9 amended: for "google.com" the extracted label is "google", its length
feature is 6, and its entropy feature is exactly log₂3 + 1/3 ≈ 1.92 bits
(within 0.02). -/
theorem C9_google_amended :
    split_sld "google.com" = "google" ∧
    (extract "google").length = 6 ∧
    (extract "google").entropy = Real.logb 2 3 + 1/3 ∧
    |(extract "google").entropy - 1.92| < 0.02 := by
  refine ⟨by decide, rfl, shannon_entropy_google, ?_⟩
  have h1 := logb_two_three_lt
  have h2 := lt_logb_two_three
  rw [show (extract "google").entropy = Real.logb 2 3 + 1/3 from shannon_entropy_google,
    abs_lt]
  constructor <;> · norm_num; linarith

/-- C10: `split_sld` is total (its `parts` list is never empty, justifying
both indexings) and normalizing: it lowercases and strips before splitting on
dots, so its value depends only on the lowercased input; with no dot in the
stripped input the whole lowercased stripped string is returned; the empty
string yields the empty string; a trailing dot as in "example.com." yields
"com"; and in the multi-dot case the component at position length - 2 (the
one left of the final part) is returned. -/
theorem C10_split_sld :
    (∀ d : String, splitDot (stripWS (pyLower d).toList) ≠ []) ∧
    (∀ d1 d2 : String, pyLower d1 = pyLower d2 → split_sld d1 = split_sld d2) ∧
    (∀ d : String, '.' ∉ stripWS (pyLower d).toList →
      split_sld d = (stripWS (pyLower d).toList).asString) ∧
    split_sld "" = "" ∧
    split_sld "example.com." = "com" ∧
    (∀ d : String, 2 ≤ (splitDot (stripWS (pyLower d).toList)).length →
      split_sld d = ((splitDot (stripWS (pyLower d).toList)).getD
        ((splitDot (stripWS (pyLower d).toList)).length - 2) []).asString) :=
  ⟨fun _ => splitDot_ne_nil _, fun _ _ h => split_sld_lower_invariant h,
    fun _ h => split_sld_no_dot h, rfl, by decide, fun _ h => split_sld_parts h⟩

theorem C10_split_sld_witness :
    split_sld "GooGle.Com" = split_sld "google.com" ∧
    split_sld "localhost" = (stripWS (pyLower "localhost").toList).asString :=
  ⟨C10_split_sld.2.1 "GooGle.Com" "google.com" (by decide),
    C10_split_sld.2.2.1 "localhost" (by decide)⟩

end DGA
